import Mathlib

/-!
Shallow embedding of the responder-side SPI command/response protocol of
`src/main/spi_api.c` (tbd-usb-msc): the frame layout, the handshake callbacks,
the chunked sender `transmitCString`, the dispatch loop `api_task`, and the
boot-slot command handlers.  Machine bytes are modelled as `Nat` with explicit
`% 256` / `% 2^32` at the points where the C code stores into fixed-width
fields.  The external SPI slave driver is modelled only through the behaviour
the source relies on: `spi_slave_transmit` performs one blocking full-duplex
exchange of the fixed 2048-byte buffers, invoking `spi_post_setup_cb` once the
transaction is queued and `spi_post_trans_cb` once it has been exchanged.
-/

namespace SpiApi

/-- A DMA byte buffer, indexed by byte offset. -/
abbrev ByteBuf := Nat → Nat

/-- Store one byte: `buf[i] = v` (a `uint8_t` store keeps only `v % 256`). -/
def writeByte (buf : ByteBuf) (i v : Nat) : ByteBuf :=
  fun j => if j = i then v % 256 else buf j

/-- Store consecutive bytes starting at offset `i`: `memcpy(buf + i, data, data.length)`. -/
def writeBytes : ByteBuf → Nat → List Nat → ByteBuf
  | buf, _, [] => buf
  | buf, i, b :: bs => writeBytes (writeByte buf i b) (i + 1) bs

/-- Store a 32-bit value little-endian at offset `i`: `*(uint32_t*)(buf + i) = v`. -/
def writeLE32 (buf : ByteBuf) (i v : Nat) : ByteBuf :=
  writeBytes buf i [v % 256, v / 256 % 256, v / 65536 % 256, v / 16777216 % 256]

/-- Handshake line events: `raise` = `gpio_set_level(GPIO_HANDSHAKE, 1)`,
`lower` = `gpio_set_level(GPIO_HANDSHAKE, 0)`. -/
inductive HSEv where
  | raise
  | lower
deriving DecidableEq

/-- `spi_post_setup_cb`: called after a transaction is queued and ready for
pickup by the master; sets the handshake line high. -/
def spi_post_setup_cb : List HSEv := [HSEv.raise]

/-- `spi_post_trans_cb`: called after the transaction is sent/received; sets
the handshake line low. -/
def spi_post_trans_cb : List HSEv := [HSEv.lower]

/-- Modelled from the spec: the external bus primitive `spi_slave_transmit`
("perform one duplex exchange of the fixed-size buffers, blocking until
complete") is not part of this repository; per the driver contract quoted in
the source comments it invokes `spi_post_setup_cb` when the transaction is
queued and `spi_post_trans_cb` when the exchange completes, so one call emits
exactly one `raise` followed by one `lower`. -/
def spi_slave_transmit_events : List HSEv := spi_post_setup_cb ++ spi_post_trans_cb

/-- The `(raise lower)*` pattern: every `raise` is followed by exactly one
`lower` before the next `raise`, and no stray `lower` occurs. -/
def pairsOnly : List HSEv → Bool
  | [] => true
  | HSEv.raise :: HSEv.lower :: t => pairsOnly t
  | _ => false

/-- The three bytes of `receive_buffer` that `transmitCString` inspects after
each chunk transaction (the controller's echo). -/
structure Echo where
  b0 : Nat
  b1 : Nat
  b2 : Nat
deriving DecidableEq

/-- An echo that passes both checks of `transmitCString`: sync marker intact
and the echoed command byte equal to the command just sent. -/
def goodEcho (reqType : Nat) (e : Echo) : Prop :=
  e.b0 = 0xCA ∧ e.b1 = 0xFE ∧ e.b2 = reqType % 256

/-- An echo that fails `transmitCString`'s checks: a sync byte different from
the marker, or a command byte different from the command sent. -/
def badEcho (reqType : Nat) (e : Echo) : Prop :=
  (e.b0 ≠ 0xCA ∨ e.b1 ≠ 0xFE) ∨ e.b2 ≠ reqType % 256

/-- Snapshot of one transmitted chunk frame: the seven header bytes of
`send_buffer` at the moment `spi_slave_transmit` is called, plus the payload
bytes copied into the frame by `memcpy`. -/
structure Chunk where
  sync0 : Nat
  sync1 : Nat
  cmd : Nat
  lf0 : Nat
  lf1 : Nat
  lf2 : Nat
  lf3 : Nat
  payload : List Nat
deriving DecidableEq

/-- The value of a chunk's 32-bit little-endian length field (offsets 3-6). -/
def lfValue (c : Chunk) : Nat :=
  c.lf0 + 256 * c.lf1 + 65536 * c.lf2 + 16777216 * c.lf3

/-- Result of a chunked send: the return value, the chunk frames transmitted
in order, the final state of `send_buffer`, and the handshake events. -/
structure SendOut where
  ok : Bool
  chunks : List Chunk
  buf : ByteBuf
  events : List HSEv

/-- `bytes_to_send = len > 2048 - 7 ? 2048 - 7 : len` — the payload size of
the next chunk (7 bytes of each 2048-byte frame are header). -/
def bytesToSend (len : Nat) : Nat :=
  if 2048 - 7 < len then 2048 - 7 else len

/-- The state of `send_buffer` after one loop iteration of `transmitCString`
whose unsent payload suffix is `rest`: the length field is stored at offsets
3-6 and the chunk's payload bytes are copied to offset 7. -/
def stepBuf (buf : ByteBuf) (rest : List Nat) : ByteBuf :=
  writeBytes (writeLE32 buf 3 rest.length) 7 (rest.take (bytesToSend rest.length))

/-- The chunk frame transmitted by one loop iteration of `transmitCString`. -/
def stepChunk (buf : ByteBuf) (rest : List Nat) : Chunk :=
  ⟨stepBuf buf rest 0, stepBuf buf rest 1, stepBuf buf rest 2, stepBuf buf rest 3,
   stepBuf buf rest 4, stepBuf buf rest 5, stepBuf buf rest 6,
   rest.take (bytesToSend rest.length)⟩

/-- The `while (len > 0)` loop of `transmitCString`.  `rest` is the unsent
suffix of the payload (`str + bytes_sent`), `k` the index of the next bus
transaction, `echo` the controller's echo for each transaction. -/
def transmitAux (reqType : Nat) (echo : Nat → Echo) (buf : ByteBuf)
    (rest : List Nat) (k : Nat) : SendOut :=
  if _h : rest.length = 0 then ⟨true, [], buf, []⟩
  else
    let len := rest.length
    let buf1 := writeLE32 buf 3 len
    let buf2 := writeBytes buf1 7 (rest.take (bytesToSend len))
    let c : Chunk := ⟨buf2 0, buf2 1, buf2 2, buf2 3, buf2 4, buf2 5, buf2 6,
                      rest.take (bytesToSend len)⟩
    let e := echo k
    if e.b0 ≠ 0xCA ∨ e.b1 ≠ 0xFE then
      ⟨false, [c], buf2, spi_slave_transmit_events⟩
    else if e.b2 ≠ reqType % 256 then
      ⟨false, [c], buf2, spi_slave_transmit_events⟩
    else
      let r := transmitAux reqType echo buf2 (rest.drop (bytesToSend len)) (k + 1)
      ⟨r.ok, c :: r.chunks, r.buf, spi_slave_transmit_events ++ r.events⟩
termination_by rest.length
decreasing_by
  simp only [List.length_drop, bytesToSend]
  split <;> omega

/-- `transmitCString(reqType, str)`: writes the request-type byte at offset 2
of `send_buffer`, then runs the chunk loop over the whole payload. -/
def transmitCString (reqType : Nat) (str : List Nat) (echo : Nat → Echo)
    (buf : ByteBuf) : SendOut :=
  transmitAux reqType echo (writeByte buf 2 reqType) str 0

/-- One flash partition as seen through the ESP-IDF partition iterator:
its type, subtype, and label. -/
structure Partition where
  ptype : Nat
  subtype : Nat
  label : String
deriving DecidableEq

def ESP_PARTITION_TYPE_APP : Nat := 0x00
def ESP_PARTITION_SUBTYPE_APP_OTA_MIN : Nat := 0x10
def ESP_PARTITION_SUBTYPE_APP_OTA_MAX : Nat := 0x20
def ESP_PARTITION_SUBTYPE_APP_OTA_0 : Nat := 0x10
def ESP_PARTITION_SUBTYPE_APP_OTA_1 : Nat := 0x11

/-- The bootability test of `count_bootable_ota_partitions`:
`OTA_MIN <= subtype && subtype <= OTA_MAX`. -/
def is_bootable_subtype (st : Nat) : Bool :=
  decide (ESP_PARTITION_SUBTYPE_APP_OTA_MIN ≤ st ∧
          st ≤ ESP_PARTITION_SUBTYPE_APP_OTA_MAX)

/-- `count_bootable_ota_partitions()`: iterate all APP-type partitions
(`esp_partition_find(ESP_PARTITION_TYPE_APP, ESP_PARTITION_SUBTYPE_ANY, NULL)`)
and count those whose subtype lies in the bootable OTA range.  `parts` is the
full partition table in enumeration order. -/
def count_bootable_ota_partitions (parts : List Partition) : Nat :=
  (parts.filter (fun p => p.ptype == ESP_PARTITION_TYPE_APP)).countP
    (fun p => is_bootable_subtype p.subtype)

/-- The bootable slots in enumeration order (the sub-sequence of the partition
table that `count_bootable_ota_partitions` counts). -/
def bootable_slots (parts : List Partition) : List Partition :=
  (parts.filter (fun p => p.ptype == ESP_PARTITION_TYPE_APP)).filter
    (fun p => is_bootable_subtype p.subtype)

/-- `boot_into_slot(slot)`: maps slot 0 to subtype `OTA_0` and every other
slot to subtype `OTA_1`, then selects the first partition of that subtype
(`esp_partition_find_first(ESP_PARTITION_TYPE_APP, st, NULL)`).  The selected
partition (when found) is persisted as next-boot target via
`esp_ota_set_boot_partition` and the device restarts. -/
def boot_into_slot (parts : List Partition) (slot : Nat) : Option Partition :=
  parts.find? (fun p => p.ptype == ESP_PARTITION_TYPE_APP &&
    p.subtype == (if slot = 0 then ESP_PARTITION_SUBTYPE_APP_OTA_0
                  else ESP_PARTITION_SUBTYPE_APP_OTA_1))

/-- `esp_get_current_ota_label()`: label of the running partition. -/
def esp_get_current_ota_label (running : Partition) : String :=
  if running.ptype = ESP_PARTITION_TYPE_APP ∧
     ESP_PARTITION_SUBTYPE_APP_OTA_MIN ≤ running.subtype ∧
     running.subtype ≤ ESP_PARTITION_SUBTYPE_APP_OTA_MAX then
    "ota" ++ toString (running.subtype - ESP_PARTITION_SUBTYPE_APP_OTA_MIN)
  else
    "factory"

/-- The observable outcome of one `api_task` loop iteration. -/
inductive Action where
  | lengthError
  | syncError
  | unknownCmd (code : Nat)
  | firmwareInfo (ok : Bool) (chunks : List Chunk)
  | rebootNow
  | slotUnavailable (arg0 numOta : Nat)
  | bootSlot (arg0 : Nat) (target : Option Partition)
deriving DecidableEq

/-- The chunk frames transmitted by an iteration's command handler. -/
def Action.chunks : Action → List Chunk
  | .firmwareInfo _ cs => cs
  | _ => []

/-- Whether an action corresponds to a command handler having been invoked
(as opposed to the transaction being rejected before dispatch). -/
def invokes_handler : Action → Bool
  | .firmwareInfo _ _ => true
  | .rebootNow => true
  | .slotUnavailable _ _ => true
  | .bootSlot _ _ => true
  | _ => false

/-- One completed bus transaction as observed by `api_task`: the reported
`trans_len` (in bits), the bytes of `receive_buffer`, and the echoes the
controller will supply during a chunked response in this iteration. -/
structure TransIn where
  trans_len : Nat
  rcv : Nat → Nat
  echo : Nat → Echo

/-- Result of one `api_task` loop iteration body. -/
structure StepOut where
  action : Action
  result : Bool
  buf : ByteBuf
  events : List HSEv

def Reboot : Nat := 0x13
def GetFirmwareInfo : Nat := 0x19
def RebootToOTAX : Nat := 0x22

/-- The `GetFirmwareInfo` handler body: build the firmware-info JSON string
(`{"HWV": "DADA", "FWV": "tusb_msc_1.1", "OTA": "<label>"}`) and transmit it
via `transmitCString(requestType, info)` (here `requestType = GetFirmwareInfo`,
the command of this branch). -/
def api_send_info (running : Partition) (t : TransIn) (buf : ByteBuf) : SendOut :=
  transmitCString GetFirmwareInfo
    (("\x7b\"HWV\": \"DADA\", \"FWV\": \"tusb_msc_1.1\", \"OTA\": \"" ++
      esp_get_current_ota_label running ++ "\"\x7d").toUTF8.toList.map (fun b => b.toNat))
    t.echo buf

/-- The body of one `api_task` loop iteration, after the transaction has
completed: integrity checks, request parsing, and command dispatch.
`resultIn` is the value of the C `result` variable on entry (it is only
assigned on the `GetFirmwareInfo` and error paths, so the other paths leave it
unchanged).  `esp_restart` does not return; the `result`/`buf` components on
the reboot paths are never observed. -/
def api_step (parts : List Partition) (running : Partition) (t : TransIn)
    (buf : ByteBuf) (resultIn : Bool) : StepOut :=
  if t.trans_len ≠ 2048 * 8 then
    ⟨.lengthError, true, buf, []⟩
  else if t.rcv 0 ≠ 0xCA ∨ t.rcv 1 ≠ 0xFE then
    ⟨.syncError, true, buf, []⟩
  else if t.rcv 2 = GetFirmwareInfo then
    ⟨.firmwareInfo (api_send_info running t buf).ok (api_send_info running t buf).chunks,
     (api_send_info running t buf).ok, (api_send_info running t buf).buf,
     (api_send_info running t buf).events⟩
  else if t.rcv 2 = Reboot then
    ⟨.rebootNow, resultIn, buf, []⟩
  else if t.rcv 2 = RebootToOTAX then
    if count_bootable_ota_partitions parts ≤ t.rcv 3 then
      ⟨.slotUnavailable (t.rcv 3) (count_bootable_ota_partitions parts), resultIn, buf, []⟩
    else
      ⟨.bootSlot (t.rcv 3) (boot_into_slot parts (t.rcv 3)), resultIn, buf, []⟩
  else
    ⟨.unknownCmd (t.rcv 2), true, buf, []⟩

/-- The persistent state of `api_task` across iterations: the `result` flag
and the contents of `send_buffer` (`true` and the `spi_start` buffer at task
start).  `api_run … n` is the state on entry to iteration `n`. -/
def api_run (parts : List Partition) (running : Partition) (ins : Nat → TransIn)
    (buf0 : ByteBuf) : Nat → Bool × ByteBuf
  | 0 => (true, buf0)
  | n + 1 =>
    let s := api_run parts running ins buf0 n
    let o := api_step parts running (ins n) s.2 s.1
    (o.result, o.buf)

/-- The outcome of iteration `n` of the dispatch loop. -/
def api_iter (parts : List Partition) (running : Partition) (ins : Nat → TransIn)
    (buf0 : ByteBuf) (n : Nat) : StepOut :=
  api_step parts running (ins n)
    (api_run parts running ins buf0 n).2 (api_run parts running ins buf0 n).1

/-- All handshake events of iteration `n`: the top-of-loop
`if (result) spi_slave_transmit(…)` resubmission followed by any transactions
the handler itself performs. -/
def api_events (parts : List Partition) (running : Partition) (ins : Nat → TransIn)
    (buf0 : ByteBuf) (n : Nat) : List HSEv :=
  (if (api_run parts running ins buf0 n).1 then spi_slave_transmit_events else []) ++
    (api_iter parts running ins buf0 n).events

/-- The handshake event trace of the first `n` iterations. -/
def api_trace (parts : List Partition) (running : Partition) (ins : Nat → TransIn)
    (buf0 : ByteBuf) (n : Nat) : List HSEv :=
  ((List.range n).map (api_events parts running ins buf0)).flatten

/-- `spi_start()`'s initialization of `send_buffer`: starting from the freshly
allocated DMA buffer `b`, write `send_buffer[0] = 0xCA; send_buffer[1] = 0xFE`. -/
def spi_start_buf (b : ByteBuf) : ByteBuf :=
  writeByte (writeByte b 0 0xCA) 1 0xFE

/-- A transaction is malformed when its bit count differs from the fixed
capacity or its first two bytes are not the sync marker. -/
def malformed (t : TransIn) : Prop :=
  t.trans_len ≠ 2048 * 8 ∨ t.rcv 0 ≠ 0xCA ∨ t.rcv 1 ≠ 0xFE

/-- An all-zero buffer, standing in for freshly allocated DMA memory. -/
def zeroBuf : ByteBuf := fun _ => 0

/-- An echo stream in which the controller always acknowledges correctly
(for command `GetFirmwareInfo = 0x19`). -/
def echoGood : Nat → Echo := fun _ => ⟨0xCA, 0xFE, 0x19⟩

/-- An echo stream whose second echo (transaction index 1) has a corrupted
sync byte; all others acknowledge `0x19` correctly. -/
def echoBadAt1 : Nat → Echo :=
  fun k => if k = 1 then ⟨0x00, 0xFE, 0x19⟩ else ⟨0xCA, 0xFE, 0x19⟩

/-- A 2042-byte payload: one byte more than a single chunk can carry. -/
def strTwoChunks : List Nat := List.replicate 2042 65

/-- A partition table with three bootable OTA slots `ota_0`, `ota_1`, `ota_2`
(subtypes `0x10`, `0x11`, `0x12`), in enumeration order. -/
def partsThreeOta : List Partition :=
  [⟨0x00, 0x10, "ota_0"⟩, ⟨0x00, 0x11, "ota_1"⟩, ⟨0x00, 0x12, "ota_2"⟩]

/-- A standard partition table: a non-bootable factory partition interleaved
before the two bootable OTA slots. -/
def partsFactoryOta : List Partition :=
  [⟨0x00, 0x00, "factory"⟩, ⟨0x00, 0x10, "ota_0"⟩, ⟨0x00, 0x11, "ota_1"⟩]

/-- A running partition (`ota0`) for concrete instantiations. -/
def runningOta0 : Partition := ⟨0x00, 0x10, "ota_0"⟩

/-- A completed transaction carrying `RebootToOTAX` with `arg0 = 1`. -/
def transRebootSlot1 : TransIn :=
  ⟨2048 * 8,
   fun i => if i = 0 then 0xCA else if i = 1 then 0xFE else
            if i = 2 then 0x22 else if i = 3 then 1 else 0,
   fun _ => ⟨0, 0, 0⟩⟩

/-- A completed transaction carrying `RebootToOTAX` with `arg0 = 7`. -/
def transRebootSlot7 : TransIn :=
  ⟨2048 * 8,
   fun i => if i = 0 then 0xCA else if i = 1 then 0xFE else
            if i = 2 then 0x22 else if i = 3 then 7 else 0,
   fun _ => ⟨0, 0, 0⟩⟩

/-- A malformed transaction: reported bit count 0 instead of `2048 * 8`. -/
def transBadLen : TransIn := ⟨0, fun _ => 0, fun _ => ⟨0, 0, 0⟩⟩

/-- An input stream consisting solely of malformed transactions. -/
def insAllBad : Nat → TransIn := fun _ => transBadLen

/-! ### Properties of the byte-store primitives -/

theorem writeByte_at (buf : ByteBuf) (i v : Nat) : writeByte buf i v i = v % 256 := by
  simp [writeByte]

theorem writeByte_ne (buf : ByteBuf) (i v j : Nat) (h : j ≠ i) :
    writeByte buf i v j = buf j := by
  simp [writeByte, h]

theorem writeBytes_lt (data : List Nat) :
    ∀ (buf : ByteBuf) (i j : Nat), j < i → writeBytes buf i data j = buf j := by
  induction data with
  | nil => intro buf i j _; rfl
  | cons b bs ih =>
    intro buf i j hj
    simp only [writeBytes]
    rw [ih _ _ _ (by omega), writeByte_ne _ _ _ _ (by omega)]

theorem writeLE32_lt (buf : ByteBuf) (i v j : Nat) (h : j < i) :
    writeLE32 buf i v j = buf j := by
  simp only [writeLE32]
  rw [writeBytes_lt _ _ _ _ h]

theorem writeLE32_at0 (buf : ByteBuf) (i v : Nat) : writeLE32 buf i v i = v % 256 := by
  simp only [writeLE32, writeBytes]
  rw [writeByte_ne _ _ _ _ (by omega), writeByte_ne _ _ _ _ (by omega),
      writeByte_ne _ _ _ _ (by omega), writeByte_at]
  omega

theorem writeLE32_at1 (buf : ByteBuf) (i v : Nat) :
    writeLE32 buf i v (i + 1) = v / 256 % 256 := by
  simp only [writeLE32, writeBytes]
  rw [writeByte_ne _ _ _ _ (by omega), writeByte_ne _ _ _ _ (by omega), writeByte_at]
  omega

theorem writeLE32_at2 (buf : ByteBuf) (i v : Nat) :
    writeLE32 buf i v (i + 2) = v / 65536 % 256 := by
  simp only [writeLE32, writeBytes]
  rw [writeByte_ne _ _ _ _ (by omega), writeByte_at]
  omega

theorem writeLE32_at3 (buf : ByteBuf) (i v : Nat) :
    writeLE32 buf i v (i + 3) = v / 16777216 % 256 := by
  simp only [writeLE32, writeBytes]
  rw [writeByte_at]
  omega

/-! ### Properties of one chunk-loop iteration -/

theorem bytesToSend_pos (len : Nat) (h : len ≠ 0) : 0 < bytesToSend len := by
  simp only [bytesToSend]; split <;> omega

theorem bytesToSend_le (len : Nat) : bytesToSend len ≤ len := by
  simp only [bytesToSend]; split <;> omega

theorem bytesToSend_eq_min (len : Nat) : bytesToSend len = min 2041 len := by
  simp only [bytesToSend]; split <;> omega

theorem bytesToSend_of_gt (len : Nat) (h : 2041 < len) : bytesToSend len = 2041 := by
  simp only [bytesToSend]; split <;> omega

theorem stepBuf_low (buf : ByteBuf) (rest : List Nat) (j : Nat) (h : j < 3) :
    stepBuf buf rest j = buf j := by
  simp only [stepBuf]
  rw [writeBytes_lt _ _ _ _ (by omega), writeLE32_lt _ _ _ _ h]

theorem stepBuf_lf0 (buf : ByteBuf) (rest : List Nat) :
    stepBuf buf rest 3 = rest.length % 256 := by
  simp only [stepBuf]
  rw [writeBytes_lt _ _ _ _ (by omega), writeLE32_at0]

theorem stepBuf_lf1 (buf : ByteBuf) (rest : List Nat) :
    stepBuf buf rest 4 = rest.length / 256 % 256 := by
  simp only [stepBuf]
  rw [writeBytes_lt _ _ _ _ (by omega)]
  exact writeLE32_at1 buf 3 rest.length

theorem stepBuf_lf2 (buf : ByteBuf) (rest : List Nat) :
    stepBuf buf rest 5 = rest.length / 65536 % 256 := by
  simp only [stepBuf]
  rw [writeBytes_lt _ _ _ _ (by omega)]
  exact writeLE32_at2 buf 3 rest.length

theorem stepBuf_lf3 (buf : ByteBuf) (rest : List Nat) :
    stepBuf buf rest 6 = rest.length / 16777216 % 256 := by
  simp only [stepBuf]
  rw [writeBytes_lt _ _ _ _ (by omega)]
  exact writeLE32_at3 buf 3 rest.length

theorem transmitAux_nil (reqType : Nat) (echo : Nat → Echo) (buf : ByteBuf) (k : Nat) :
    transmitAux reqType echo buf [] k = ⟨true, [], buf, []⟩ := by
  rw [transmitAux]
  simp

theorem transmitAux_step_good (reqType : Nat) (echo : Nat → Echo) (buf : ByteBuf)
    (rest : List Nat) (k : Nat) (hlen : rest.length ≠ 0)
    (hg : goodEcho reqType (echo k)) :
    transmitAux reqType echo buf rest k =
      ⟨(transmitAux reqType echo (stepBuf buf rest)
          (rest.drop (bytesToSend rest.length)) (k + 1)).ok,
       stepChunk buf rest ::
         (transmitAux reqType echo (stepBuf buf rest)
           (rest.drop (bytesToSend rest.length)) (k + 1)).chunks,
       (transmitAux reqType echo (stepBuf buf rest)
         (rest.drop (bytesToSend rest.length)) (k + 1)).buf,
       spi_slave_transmit_events ++
         (transmitAux reqType echo (stepBuf buf rest)
           (rest.drop (bytesToSend rest.length)) (k + 1)).events⟩ := by
  obtain ⟨h0, h1, h2⟩ := hg
  rw [transmitAux]
  simp [hlen, h0, h1, h2, stepBuf, stepChunk]

theorem transmitAux_step_bad (reqType : Nat) (echo : Nat → Echo) (buf : ByteBuf)
    (rest : List Nat) (k : Nat) (hlen : rest.length ≠ 0)
    (hb : badEcho reqType (echo k)) :
    transmitAux reqType echo buf rest k =
      ⟨false, [stepChunk buf rest], stepBuf buf rest, spi_slave_transmit_events⟩ := by
  rw [transmitAux]
  by_cases h1 : (echo k).b0 ≠ 0xCA ∨ (echo k).b1 ≠ 0xFE
  · simp [hlen, h1, stepBuf, stepChunk]
  · rcases hb with hb | hb
    · exact absurd hb h1
    · simp [hlen, h1, hb, stepBuf, stepChunk]

theorem goodEcho_or_badEcho (reqType : Nat) (e : Echo) :
    goodEcho reqType e ∨ badEcho reqType e := by
  by_cases h0 : e.b0 = 0xCA
  · by_cases h1 : e.b1 = 0xFE
    · by_cases h2 : e.b2 = reqType % 256
      · exact Or.inl ⟨h0, h1, h2⟩
      · exact Or.inr (Or.inr h2)
    · exact Or.inr (Or.inl (Or.inr h1))
  · exact Or.inr (Or.inl (Or.inl h0))

/-! ### Behaviour of the chunk loop -/

theorem transmitAux_good_all (reqType : Nat) (echo : Nat → Echo)
    (hg : ∀ j, goodEcho reqType (echo j)) :
    ∀ (n : Nat) (rest : List Nat) (buf : ByteBuf) (k : Nat), rest.length ≤ n →
      (transmitAux reqType echo buf rest k).ok = true ∧
      (transmitAux reqType echo buf rest k).chunks.length = (rest.length + 2040) / 2041 ∧
      ((transmitAux reqType echo buf rest k).chunks.map Chunk.payload).flatten = rest := by
  intro n
  induction n with
  | zero =>
    intro rest buf k hle
    have hnil : rest = [] := List.eq_nil_of_length_eq_zero (by omega)
    subst hnil
    rw [transmitAux_nil]
    simp
  | succ n ih =>
    intro rest buf k hle
    by_cases h0 : rest.length = 0
    · have hnil : rest = [] := List.eq_nil_of_length_eq_zero h0
      subst hnil
      rw [transmitAux_nil]
      simp
    · rw [transmitAux_step_good reqType echo buf rest k h0 (hg k)]
      have hbtsle := bytesToSend_le rest.length
      have hbtspos := bytesToSend_pos rest.length h0
      obtain ⟨hok, hlen, hflat⟩ :=
        ih (rest.drop (bytesToSend rest.length)) (stepBuf buf rest) (k + 1)
          (by simp only [List.length_drop]; omega)
      refine ⟨hok, ?_, ?_⟩
      · simp only [List.length_cons, hlen, List.length_drop]
        rw [bytesToSend_eq_min]
        omega
      · simp only [List.map_cons, List.flatten_cons, hflat, stepChunk]
        exact List.take_append_drop _ _

theorem transmitAux_chunk_spec (reqType : Nat) (echo : Nat → Echo)
    (hg : ∀ j, goodEcho reqType (echo j)) :
    ∀ (i : Nat) (rest : List Nat) (buf : ByteBuf) (k : Nat),
      rest.length < 2 ^ 32 → 2041 * i < rest.length →
      ∃ c, (transmitAux reqType echo buf rest k).chunks[i]? = some c ∧
        lfValue c = rest.length - 2041 * i ∧
        c.payload.length = min 2041 (rest.length - 2041 * i) := by
  intro i
  induction i with
  | zero =>
    intro rest buf k h32 hpos
    have h0 : rest.length ≠ 0 := by omega
    rw [transmitAux_step_good reqType echo buf rest k h0 (hg k)]
    refine ⟨stepChunk buf rest, by simp, ?_, ?_⟩
    · simp only [lfValue, stepChunk, stepBuf_lf0, stepBuf_lf1, stepBuf_lf2, stepBuf_lf3]
      omega
    · simp only [stepChunk, List.length_take, bytesToSend_eq_min]
      omega
  | succ i ih =>
    intro rest buf k h32 hpos
    have h2041 : 2041 < rest.length := by omega
    have h0 : rest.length ≠ 0 := by omega
    rw [transmitAux_step_good reqType echo buf rest k h0 (hg k),
        bytesToSend_of_gt _ h2041]
    have h32' : (rest.drop 2041).length < 2 ^ 32 := by
      simp only [List.length_drop]; omega
    have hpos' : 2041 * i < (rest.drop 2041).length := by
      simp only [List.length_drop]
      omega
    obtain ⟨c, hc, hlf, hpl⟩ :=
      ih (rest.drop 2041) (stepBuf buf rest) (k + 1) h32' hpos'
    refine ⟨c, ?_, ?_, ?_⟩
    · simpa using hc
    · simp only [List.length_drop] at hlf
      omega
    · simp only [List.length_drop] at hpl
      omega

theorem transmitAux_firstBad (reqType : Nat) (echo : Nat → Echo) :
    ∀ (m : Nat) (rest : List Nat) (buf : ByteBuf) (k : Nat),
      (∀ j, j < m → goodEcho reqType (echo (k + j))) →
      badEcho reqType (echo (k + m)) →
      2041 * m < rest.length →
      (transmitAux reqType echo buf rest k).ok = false ∧
      (transmitAux reqType echo buf rest k).chunks.length = m + 1 := by
  intro m
  induction m with
  | zero =>
    intro rest buf k hgood hbad hlen
    have h0 : rest.length ≠ 0 := by omega
    rw [transmitAux_step_bad reqType echo buf rest k h0 (by simpa using hbad)]
    simp
  | succ m ih =>
    intro rest buf k hgood hbad hlen
    have h2041 : 2041 < rest.length := by
      have : 2041 ≤ 2041 * (m + 1) := by omega
      omega
    have h0 : rest.length ≠ 0 := by omega
    have hg0 : goodEcho reqType (echo k) := by simpa using hgood 0 (by omega)
    rw [transmitAux_step_good reqType echo buf rest k h0 hg0]
    have hgood' : ∀ j, j < m → goodEcho reqType (echo (k + 1 + j)) := by
      intro j hj
      have h := hgood (j + 1) (by omega)
      have heq : k + (j + 1) = k + 1 + j := by omega
      rwa [heq] at h
    have hbad' : badEcho reqType (echo (k + 1 + m)) := by
      have heq : k + (m + 1) = k + 1 + m := by omega
      rwa [heq] at hbad
    have hlen' : 2041 * m < (rest.drop (bytesToSend rest.length)).length := by
      rw [bytesToSend_of_gt _ h2041]
      simp only [List.length_drop]
      omega
    obtain ⟨hok, hcnt⟩ :=
      ih (rest.drop (bytesToSend rest.length)) (stepBuf buf rest) (k + 1) hgood' hbad' hlen'
    exact ⟨hok, by simp [hcnt]⟩

theorem transmitAux_low (reqType : Nat) (echo : Nat → Echo) :
    ∀ (n : Nat) (rest : List Nat) (buf : ByteBuf) (k : Nat), rest.length ≤ n →
      (∀ j, j < 3 → (transmitAux reqType echo buf rest k).buf j = buf j) ∧
      (∀ c ∈ (transmitAux reqType echo buf rest k).chunks,
         c.sync0 = buf 0 ∧ c.sync1 = buf 1 ∧ c.cmd = buf 2) := by
  intro n
  induction n with
  | zero =>
    intro rest buf k hle
    have hnil : rest = [] := List.eq_nil_of_length_eq_zero (by omega)
    subst hnil
    rw [transmitAux_nil]
    simp
  | succ n ih =>
    intro rest buf k hle
    by_cases h0 : rest.length = 0
    · have hnil : rest = [] := List.eq_nil_of_length_eq_zero h0
      subst hnil
      rw [transmitAux_nil]
      simp
    · have hbtspos := bytesToSend_pos rest.length h0
      rcases goodEcho_or_badEcho reqType (echo k) with hgk | hbk
      · rw [transmitAux_step_good reqType echo buf rest k h0 hgk]
        obtain ⟨ihbuf, ihchunks⟩ :=
          ih (rest.drop (bytesToSend rest.length)) (stepBuf buf rest) (k + 1)
            (by simp only [List.length_drop]; omega)
        constructor
        · intro j hj
          exact (ihbuf j hj).trans (stepBuf_low buf rest j hj)
        · intro c hc
          simp only [List.mem_cons] at hc
          rcases hc with rfl | hc
          · exact ⟨stepBuf_low buf rest 0 (by omega), stepBuf_low buf rest 1 (by omega),
                   stepBuf_low buf rest 2 (by omega)⟩
          · obtain ⟨hs0, hs1, hcm⟩ := ihchunks c hc
            exact ⟨hs0.trans (stepBuf_low buf rest 0 (by omega)),
                   hs1.trans (stepBuf_low buf rest 1 (by omega)),
                   hcm.trans (stepBuf_low buf rest 2 (by omega))⟩
      · rw [transmitAux_step_bad reqType echo buf rest k h0 hbk]
        constructor
        · intro j hj
          exact stepBuf_low buf rest j hj
        · intro c hc
          simp only [List.mem_singleton] at hc
          subst hc
          exact ⟨stepBuf_low buf rest 0 (by omega), stepBuf_low buf rest 1 (by omega),
                 stepBuf_low buf rest 2 (by omega)⟩

theorem pairsOnly_append_aux :
    ∀ (n : Nat) (a b : List HSEv), a.length ≤ n →
      pairsOnly a = true → pairsOnly b = true → pairsOnly (a ++ b) = true := by
  intro n
  induction n with
  | zero =>
    intro a b hle ha hb
    have hnil : a = [] := List.eq_nil_of_length_eq_zero (by omega)
    subst hnil
    simpa using hb
  | succ n ih =>
    intro a b hle ha hb
    match a with
    | [] => simpa using hb
    | [x] => cases x <;> simp [pairsOnly] at ha
    | HSEv.raise :: HSEv.lower :: t =>
      simp only [pairsOnly] at ha
      simp only [List.cons_append, pairsOnly]
      exact ih t b (by simp at hle; omega) ha hb
    | HSEv.raise :: HSEv.raise :: t => simp [pairsOnly] at ha
    | HSEv.lower :: y :: t => simp [pairsOnly] at ha

theorem pairsOnly_append (a b : List HSEv)
    (ha : pairsOnly a = true) (hb : pairsOnly b = true) :
    pairsOnly (a ++ b) = true :=
  pairsOnly_append_aux a.length a b le_rfl ha hb

theorem pairsOnly_transmit_events : pairsOnly spi_slave_transmit_events = true := by
  rfl

theorem transmitAux_events_pairs (reqType : Nat) (echo : Nat → Echo) :
    ∀ (n : Nat) (rest : List Nat) (buf : ByteBuf) (k : Nat), rest.length ≤ n →
      pairsOnly (transmitAux reqType echo buf rest k).events = true := by
  intro n
  induction n with
  | zero =>
    intro rest buf k hle
    have hnil : rest = [] := List.eq_nil_of_length_eq_zero (by omega)
    subst hnil
    rw [transmitAux_nil]
    rfl
  | succ n ih =>
    intro rest buf k hle
    by_cases h0 : rest.length = 0
    · have hnil : rest = [] := List.eq_nil_of_length_eq_zero h0
      subst hnil
      rw [transmitAux_nil]
      rfl
    · have hbtspos := bytesToSend_pos rest.length h0
      rcases goodEcho_or_badEcho reqType (echo k) with hgk | hbk
      · rw [transmitAux_step_good reqType echo buf rest k h0 hgk]
        exact pairsOnly_append _ _ pairsOnly_transmit_events
          (ih (rest.drop (bytesToSend rest.length)) (stepBuf buf rest) (k + 1)
            (by simp only [List.length_drop]; omega))
      · rw [transmitAux_step_bad reqType echo buf rest k h0 hbk]
        rfl

theorem transmitCString_low (reqType : Nat) (str : List Nat) (echo : Nat → Echo)
    (buf : ByteBuf) :
    (transmitCString reqType str echo buf).buf 0 = buf 0 ∧
    (transmitCString reqType str echo buf).buf 1 = buf 1 ∧
    ∀ c ∈ (transmitCString reqType str echo buf).chunks,
      c.sync0 = buf 0 ∧ c.sync1 = buf 1 := by
  unfold transmitCString
  obtain ⟨hbuf, hch⟩ :=
    transmitAux_low reqType echo str.length str (writeByte buf 2 reqType) 0 le_rfl
  have e0 : writeByte buf 2 reqType 0 = buf 0 := writeByte_ne _ _ _ _ (by omega)
  have e1 : writeByte buf 2 reqType 1 = buf 1 := writeByte_ne _ _ _ _ (by omega)
  refine ⟨(hbuf 0 (by omega)).trans e0, (hbuf 1 (by omega)).trans e1, ?_⟩
  intro c hc
  obtain ⟨hs0, hs1, _⟩ := hch c hc
  exact ⟨hs0.trans e0, hs1.trans e1⟩

theorem transmitCString_events_pairs (reqType : Nat) (str : List Nat) (echo : Nat → Echo)
    (buf : ByteBuf) :
    pairsOnly (transmitCString reqType str echo buf).events = true := by
  unfold transmitCString
  exact transmitAux_events_pairs reqType echo str.length str (writeByte buf 2 reqType) 0 le_rfl

/-! ### Behaviour of the dispatch loop -/

theorem api_step_malformed (parts : List Partition) (running : Partition) (t : TransIn)
    (b : ByteBuf) (res : Bool) (h : malformed t) :
    ((api_step parts running t b res).action = Action.lengthError ∨
     (api_step parts running t b res).action = Action.syncError) ∧
    (api_step parts running t b res).result = true ∧
    (api_step parts running t b res).buf = b ∧
    (api_step parts running t b res).events = [] := by
  unfold api_step
  by_cases h1 : t.trans_len ≠ 2048 * 8
  · rw [if_pos h1]
    exact ⟨Or.inl rfl, rfl, rfl, rfl⟩
  · rw [if_neg h1]
    have h2 : t.rcv 0 ≠ 0xCA ∨ t.rcv 1 ≠ 0xFE := by
      rcases h with h | h | h
      · exact absurd h h1
      · exact Or.inl h
      · exact Or.inr h
    rw [if_pos h2]
    exact ⟨Or.inr rfl, rfl, rfl, rfl⟩

theorem api_send_info_low (running : Partition) (t : TransIn) (buf : ByteBuf) :
    (api_send_info running t buf).buf 0 = buf 0 ∧
    (api_send_info running t buf).buf 1 = buf 1 ∧
    ∀ c ∈ (api_send_info running t buf).chunks,
      c.sync0 = buf 0 ∧ c.sync1 = buf 1 := by
  unfold api_send_info
  exact transmitCString_low _ _ _ _

theorem api_send_info_events_pairs (running : Partition) (t : TransIn) (buf : ByteBuf) :
    pairsOnly (api_send_info running t buf).events = true := by
  unfold api_send_info
  exact transmitCString_events_pairs _ _ _ _

theorem api_step_error_inv (parts : List Partition) (running : Partition) (t : TransIn)
    (b : ByteBuf) (res : Bool)
    (h : (api_step parts running t b res).action = Action.lengthError ∨
         (api_step parts running t b res).action = Action.syncError) :
    api_step parts running t b res =
      ⟨(api_step parts running t b res).action, true, b, []⟩ := by
  unfold api_step at h ⊢
  split_ifs at h ⊢ <;>
    first
      | rfl
      | (rcases h with h | h <;> exact h.elim)

theorem api_step_low (parts : List Partition) (running : Partition) (t : TransIn)
    (b : ByteBuf) (res : Bool) :
    (api_step parts running t b res).buf 0 = b 0 ∧
    (api_step parts running t b res).buf 1 = b 1 ∧
    ∀ c ∈ (api_step parts running t b res).action.chunks,
      c.sync0 = b 0 ∧ c.sync1 = b 1 := by
  obtain ⟨h0, h1, hch⟩ := api_send_info_low running t b
  unfold api_step
  split_ifs <;>
    first
      | exact ⟨rfl, rfl, by intro c hc; simp [Action.chunks] at hc⟩
      | exact ⟨h0, h1, fun c hc => hch c hc⟩

theorem api_step_events_pairs (parts : List Partition) (running : Partition) (t : TransIn)
    (b : ByteBuf) (res : Bool) :
    pairsOnly (api_step parts running t b res).events = true := by
  unfold api_step
  split_ifs <;>
    first
      | rfl
      | exact api_send_info_events_pairs running t b

theorem api_run_succ (parts : List Partition) (running : Partition) (ins : Nat → TransIn)
    (buf0 : ByteBuf) (n : Nat) :
    api_run parts running ins buf0 (n + 1) =
      ((api_step parts running (ins n) (api_run parts running ins buf0 n).2
          (api_run parts running ins buf0 n).1).result,
       (api_step parts running (ins n) (api_run parts running ins buf0 n).2
          (api_run parts running ins buf0 n).1).buf) := rfl

theorem api_iter_eq (parts : List Partition) (running : Partition) (ins : Nat → TransIn)
    (buf0 : ByteBuf) (n : Nat) :
    api_iter parts running ins buf0 n =
      api_step parts running (ins n) (api_run parts running ins buf0 n).2
        (api_run parts running ins buf0 n).1 := rfl

theorem api_run_low (parts : List Partition) (running : Partition) (ins : Nat → TransIn)
    (buf0 : ByteBuf) :
    ∀ n, (api_run parts running ins buf0 n).2 0 = buf0 0 ∧
         (api_run parts running ins buf0 n).2 1 = buf0 1 := by
  intro n
  induction n with
  | zero => exact ⟨rfl, rfl⟩
  | succ n ih =>
    obtain ⟨h0, h1⟩ := ih
    obtain ⟨s0, s1, _⟩ := api_step_low parts running (ins n)
      (api_run parts running ins buf0 n).2 (api_run parts running ins buf0 n).1
    rw [api_run_succ]
    exact ⟨s0.trans h0, s1.trans h1⟩

theorem api_events_pairs (parts : List Partition) (running : Partition) (ins : Nat → TransIn)
    (buf0 : ByteBuf) (n : Nat) :
    pairsOnly (api_events parts running ins buf0 n) = true := by
  unfold api_events
  apply pairsOnly_append
  · split
    · rfl
    · rfl
  · rw [api_iter_eq]
    exact api_step_events_pairs parts running (ins n)
      (api_run parts running ins buf0 n).2 (api_run parts running ins buf0 n).1

theorem spi_start_buf_0 (b : ByteBuf) : spi_start_buf b 0 = 0xCA := by
  simp [spi_start_buf, writeByte]

theorem spi_start_buf_1 (b : ByteBuf) : spi_start_buf b 1 = 0xFE := by
  simp [spi_start_buf, writeByte]

/-! ### Boot-slot selection -/

theorem count_bootable_eq_length (parts : List Partition) :
    count_bootable_ota_partitions parts = (bootable_slots parts).length := by
  simp [count_bootable_ota_partitions, bootable_slots, List.countP_eq_length_filter]

theorem bootable_slots_cons (p : Partition) (ps : List Partition) :
    bootable_slots (p :: ps) =
      if p.ptype == ESP_PARTITION_TYPE_APP && is_bootable_subtype p.subtype then
        p :: bootable_slots ps
      else bootable_slots ps := by
  simp only [bootable_slots, List.filter_cons]
  cases hA : (p.ptype == ESP_PARTITION_TYPE_APP) <;>
    cases hB : is_bootable_subtype p.subtype <;>
      simp [hA, hB, List.filter_cons]

theorem boot_into_slot_zero (parts : List Partition) :
    boot_into_slot parts 0 =
      parts.find? (fun p => p.ptype == ESP_PARTITION_TYPE_APP &&
        p.subtype == ESP_PARTITION_SUBTYPE_APP_OTA_0) := by
  simp [boot_into_slot]

theorem boot_into_slot_one (parts : List Partition) :
    boot_into_slot parts 1 =
      parts.find? (fun p => p.ptype == ESP_PARTITION_TYPE_APP &&
        p.subtype == ESP_PARTITION_SUBTYPE_APP_OTA_1) := by
  simp [boot_into_slot]

theorem find_pred_false_of_skipped (s : Nat) (hs : is_bootable_subtype s = true)
    (p : Partition)
    (hcond : ¬((p.ptype == ESP_PARTITION_TYPE_APP && is_bootable_subtype p.subtype) = true)) :
    (p.ptype == ESP_PARTITION_TYPE_APP && p.subtype == s) = false := by
  cases hx : (p.ptype == ESP_PARTITION_TYPE_APP && p.subtype == s) with
  | false => rfl
  | true =>
    exfalso
    simp only [Bool.and_eq_true, beq_iff_eq] at hx
    apply hcond
    simp only [Bool.and_eq_true, beq_iff_eq]
    exact ⟨hx.1, hx.2 ▸ hs⟩

theorem find_first_of_subtype (s : Nat) (hs : is_bootable_subtype s = true) :
    ∀ (parts : List Partition) (rest : List Nat),
      (bootable_slots parts).map Partition.subtype = s :: rest →
      parts.find? (fun p => p.ptype == ESP_PARTITION_TYPE_APP && p.subtype == s) =
        (bootable_slots parts)[0]? := by
  intro parts
  induction parts with
  | nil =>
    intro rest h
    simp [bootable_slots] at h
  | cons p ps ih =>
    intro rest h
    rw [bootable_slots_cons] at h ⊢
    by_cases hcond : (p.ptype == ESP_PARTITION_TYPE_APP && is_bootable_subtype p.subtype) = true
    · rw [if_pos hcond] at h ⊢
      simp only [List.map_cons, List.cons.injEq] at h
      have hA : (p.ptype == ESP_PARTITION_TYPE_APP) = true := by
        simp only [Bool.and_eq_true] at hcond
        exact hcond.1
      have hfind : (p.ptype == ESP_PARTITION_TYPE_APP && p.subtype == s) = true := by
        simp only [Bool.and_eq_true, beq_iff_eq]
        refine ⟨?_, h.1⟩
        simpa using hA
      rw [List.find?_cons]
      simp only [hfind, List.getElem?_cons_zero]
    · rw [if_neg hcond] at h ⊢
      rw [List.find?_cons]
      simp only [find_pred_false_of_skipped s hs p hcond]
      exact ih rest h

theorem find_second_of_subtype (s0 s1 : Nat) (hs1 : is_bootable_subtype s1 = true)
    (hne : s0 ≠ s1) :
    ∀ (parts : List Partition),
      (bootable_slots parts).map Partition.subtype = [s0, s1] →
      parts.find? (fun p => p.ptype == ESP_PARTITION_TYPE_APP && p.subtype == s1) =
        (bootable_slots parts)[1]? := by
  intro parts
  induction parts with
  | nil =>
    intro h
    simp [bootable_slots] at h
  | cons p ps ih =>
    intro h
    rw [bootable_slots_cons] at h ⊢
    by_cases hcond : (p.ptype == ESP_PARTITION_TYPE_APP && is_bootable_subtype p.subtype) = true
    · rw [if_pos hcond] at h ⊢
      simp only [List.map_cons, List.cons.injEq] at h
      have hfind : (p.ptype == ESP_PARTITION_TYPE_APP && p.subtype == s1) = false := by
        cases hx : (p.ptype == ESP_PARTITION_TYPE_APP && p.subtype == s1) with
        | false => rfl
        | true =>
          exfalso
          simp only [Bool.and_eq_true, beq_iff_eq] at hx
          exact hne (h.1 ▸ hx.2 ▸ rfl)
      rw [List.find?_cons]
      simp only [hfind, List.getElem?_cons_succ]
      exact find_first_of_subtype s1 hs1 ps [] h.2
    · rw [if_neg hcond] at h ⊢
      rw [List.find?_cons]
      simp only [find_pred_false_of_skipped s1 hs1 p hcond]
      exact ih h

/-! ### The claims -/

/-- C2: with a matching echo for every transaction, `transmitCString` on a
payload of length `L` returns success, issues exactly `⌈L / 2041⌉` bus
transactions (written `(L + 2040) / 2041`; 2041 = 2048 - 7 payload bytes per
chunk), and the payload bytes copied into the chunk frames sum to exactly `L`. -/
theorem claim_C2 (reqType : Nat) (str : List Nat) (echo : Nat → Echo) (buf : ByteBuf)
    (hg : ∀ j, goodEcho reqType (echo j)) :
    (transmitCString reqType str echo buf).ok = true ∧
    (transmitCString reqType str echo buf).chunks.length = (str.length + 2040) / 2041 ∧
    ((transmitCString reqType str echo buf).chunks.map (fun c => c.payload.length)).sum
      = str.length := by
  unfold transmitCString
  obtain ⟨hok, hlen, hflat⟩ :=
    transmitAux_good_all reqType echo hg str.length str (writeByte buf 2 reqType) 0 le_rfl
  refine ⟨hok, hlen, ?_⟩
  have hlenflat := congrArg List.length hflat
  simp only [List.length_flatten, List.map_map] at hlenflat
  simpa [Function.comp] using hlenflat

theorem claim_C2_witness :
    (∀ j, goodEcho 0x19 (echoGood j)) ∧
    (transmitCString 0x19 [65, 66, 67] echoGood zeroBuf).ok = true ∧
    (transmitCString 0x19 [65, 66, 67] echoGood zeroBuf).chunks.length =
      (([65, 66, 67] : List Nat).length + 2040) / 2041 :=
  ⟨fun _ => ⟨rfl, rfl, rfl⟩,
   (claim_C2 0x19 [65, 66, 67] echoGood zeroBuf (fun _ => ⟨rfl, rfl, rfl⟩)).1,
   (claim_C2 0x19 [65, 66, 67] echoGood zeroBuf (fun _ => ⟨rfl, rfl, rfl⟩)).2.1⟩

/-- C3: if the echoes of the first `m` chunk transactions match and the echo
of transaction `m` is corrupted (wrong sync byte or wrong command byte), and
the payload is long enough that chunk `m` exists, then `transmitCString`
returns failure and has transmitted exactly the `m + 1` chunks up to and
including the failing one — no chunk after the failing one is sent. -/
theorem claim_C3 (reqType : Nat) (str : List Nat) (echo : Nat → Echo) (buf : ByteBuf)
    (m : Nat)
    (hgood : ∀ j, j < m → goodEcho reqType (echo j))
    (hbad : badEcho reqType (echo m))
    (hm : 2041 * m < str.length) :
    (transmitCString reqType str echo buf).ok = false ∧
    (transmitCString reqType str echo buf).chunks.length = m + 1 := by
  unfold transmitCString
  exact transmitAux_firstBad reqType echo m str (writeByte buf 2 reqType) 0
    (fun j hj => by simpa using hgood j hj) (by simpa using hbad) hm

theorem claim_C3_witness :
    (∀ j, j < 1 → goodEcho 0x19 (echoBadAt1 j)) ∧
    badEcho 0x19 (echoBadAt1 1) ∧
    2041 * 1 < strTwoChunks.length ∧
    (transmitCString 0x19 strTwoChunks echoBadAt1 zeroBuf).ok = false ∧
    (transmitCString 0x19 strTwoChunks echoBadAt1 zeroBuf).chunks.length = 1 + 1 := by
  have hgood : ∀ j, j < 1 → goodEcho 0x19 (echoBadAt1 j) := by
    intro j hj
    have hj0 : j = 0 := by omega
    subst hj0
    exact ⟨rfl, rfl, rfl⟩
  have hbad : badEcho 0x19 (echoBadAt1 1) := Or.inl (Or.inl (by decide))
  have hm : 2041 * 1 < strTwoChunks.length := by
    simp only [strTwoChunks, List.length_replicate]
    omega
  obtain ⟨hok, hcnt⟩ := claim_C3 0x19 strTwoChunks echoBadAt1 zeroBuf 1 hgood hbad hm
  exact ⟨hgood, hbad, hm, hok, hcnt⟩

/-- C6: with matching echoes, the `i`-th chunk frame produced by
`transmitCString` (when it exists, i.e. `2041 * i < L < 2^32`) carries in its
32-bit little-endian length field at byte offsets 3-6 exactly the number of
payload bytes still unsent before that chunk, `L - 2041 * i`, and its payload
is `min 2041 (L - 2041 * i) ≤ 2041` bytes.  In particular the first chunk
carries the full payload length and the final chunk exactly its own size. -/
theorem claim_C6 (reqType : Nat) (str : List Nat) (echo : Nat → Echo) (buf : ByteBuf)
    (i : Nat)
    (hg : ∀ j, goodEcho reqType (echo j))
    (h32 : str.length < 2 ^ 32)
    (hi : 2041 * i < str.length) :
    ∃ c, (transmitCString reqType str echo buf).chunks[i]? = some c ∧
      lfValue c = str.length - 2041 * i ∧
      c.payload.length = min 2041 (str.length - 2041 * i) ∧
      c.payload.length ≤ 2041 := by
  unfold transmitCString
  obtain ⟨c, hc, hlf, hpl⟩ :=
    transmitAux_chunk_spec reqType echo hg i str (writeByte buf 2 reqType) 0 h32 hi
  exact ⟨c, hc, hlf, hpl, by omega⟩

theorem claim_C6_witness :
    (∀ j, goodEcho 0x19 (echoGood j)) ∧
    ([65] : List Nat).length < 2 ^ 32 ∧
    2041 * 0 < ([65] : List Nat).length ∧
    ∃ c, (transmitCString 0x19 [65] echoGood zeroBuf).chunks[0]? = some c ∧
      lfValue c = ([65] : List Nat).length - 2041 * 0 ∧
      c.payload.length = min 2041 (([65] : List Nat).length - 2041 * 0) ∧
      c.payload.length ≤ 2041 :=
  ⟨fun _ => ⟨rfl, rfl, rfl⟩, by decide, by decide,
   claim_C6 0x19 [65] echoGood zeroBuf 0 (fun _ => ⟨rfl, rfl, rfl⟩) (by decide) (by decide)⟩

/-- C10: `transmitCString` on an empty payload (`strlen = 0`) never enters the
chunk loop: it performs no bus transaction (no chunks, no handshake events)
and returns success; its only buffer effect is the request-type byte stored at
offset 2 before the loop. -/
theorem claim_C10 (reqType : Nat) (echo : Nat → Echo) (buf : ByteBuf) :
    transmitCString reqType [] echo buf =
      ⟨true, [], writeByte buf 2 reqType, []⟩ := by
  unfold transmitCString
  exact transmitAux_nil reqType echo (writeByte buf 2 reqType) 0

/-- C4: when every completed transaction is malformed (wrong total bit count
or wrong sync marker), every iteration of the dispatch loop merely logs the
error and returns to awaiting the next transaction: the loop state stays
`(result = true, send_buffer unchanged)` for every `n` (the loop never
terminates), the iteration's action is a length or sync error, no command
handler is invoked and no frame is transmitted; moreover the outcome of a
rejected transaction depends only on `trans_len` and the first two received
bytes — no further frame field is read. -/
theorem claim_C4 (parts : List Partition) (running : Partition) (ins : Nat → TransIn)
    (buf0 : ByteBuf) (n : Nat) (hall : ∀ m, malformed (ins m)) :
    (∀ (t : TransIn) (b : ByteBuf) (res : Bool), malformed t →
       ((api_step parts running t b res).action = Action.lengthError ∨
        (api_step parts running t b res).action = Action.syncError) ∧
       invokes_handler (api_step parts running t b res).action = false ∧
       (api_step parts running t b res).result = true ∧
       (api_step parts running t b res).buf = b ∧
       (api_step parts running t b res).events = []) ∧
    api_run parts running ins buf0 n = (true, buf0) ∧
    ((api_iter parts running ins buf0 n).action = Action.lengthError ∨
     (api_iter parts running ins buf0 n).action = Action.syncError) ∧
    (∀ (t u : TransIn) (b : ByteBuf) (res : Bool),
       t.trans_len = u.trans_len → t.rcv 0 = u.rcv 0 → t.rcv 1 = u.rcv 1 →
       malformed t →
       (api_step parts running t b res).action = (api_step parts running u b res).action) := by
  have hrun : ∀ m, api_run parts running ins buf0 m = (true, buf0) := by
    intro m
    induction m with
    | zero => rfl
    | succ m ih =>
      rw [api_run_succ, ih]
      obtain ⟨_, hres, hbuf, _⟩ :=
        api_step_malformed parts running (ins m) (true, buf0).2 (true, buf0).1 (hall m)
      rw [hres, hbuf]
  obtain ⟨hact, _, _, _⟩ :=
    api_step_malformed parts running (ins n)
      (api_run parts running ins buf0 n).2 (api_run parts running ins buf0 n).1 (hall n)
  refine ⟨?_, hrun n, hact, ?_⟩
  · intro t b res hm
    obtain ⟨ha, hres, hbuf, hev⟩ := api_step_malformed parts running t b res hm
    refine ⟨ha, ?_, hres, hbuf, hev⟩
    rcases ha with h | h <;> rw [h] <;> rfl
  · intro t u b res hl h0 h1 hm
    unfold api_step
    by_cases hL : t.trans_len ≠ 2048 * 8
    · rw [if_pos hL, if_pos (show u.trans_len ≠ 2048 * 8 by rw [← hl]; exact hL)]
    · rw [if_neg hL]
      have hS : t.rcv 0 ≠ 0xCA ∨ t.rcv 1 ≠ 0xFE := by
        rcases hm with h | h | h
        · exact absurd h hL
        · exact Or.inl h
        · exact Or.inr h
      rw [if_pos hS, if_neg (show ¬u.trans_len ≠ 2048 * 8 by rw [← hl]; exact hL),
          if_pos (show u.rcv 0 ≠ 0xCA ∨ u.rcv 1 ≠ 0xFE by rw [← h0, ← h1]; exact hS)]

theorem claim_C4_witness :
    (∀ m, malformed (insAllBad m)) ∧
    api_run partsFactoryOta runningOta0 insAllBad zeroBuf 2 = (true, zeroBuf) ∧
    ((api_iter partsFactoryOta runningOta0 insAllBad zeroBuf 2).action = Action.lengthError ∨
     (api_iter partsFactoryOta runningOta0 insAllBad zeroBuf 2).action = Action.syncError) :=
  ⟨fun _ => Or.inl (by simp [insAllBad, transBadLen]),
   (claim_C4 partsFactoryOta runningOta0 insAllBad zeroBuf 2
     (fun _ => Or.inl (by simp [insAllBad, transBadLen]))).2.1,
   (claim_C4 partsFactoryOta runningOta0 insAllBad zeroBuf 2
     (fun _ => Or.inl (by simp [insAllBad, transBadLen]))).2.2.1⟩

/-- C7: if iteration `n` of the dispatch loop ended in an error (malformed
frame or length mismatch), then the next cycle re-submits: its `result` flag
is true, so iteration `n + 1` begins with the `spi_slave_transmit` of the same
transaction (its events lead the cycle's event list), and the transmit buffer
entering iteration `n + 1` is exactly the buffer of iteration `n`, unmodified. -/
theorem claim_C7 (parts : List Partition) (running : Partition) (ins : Nat → TransIn)
    (buf0 : ByteBuf) (n : Nat)
    (herr : (api_iter parts running ins buf0 n).action = Action.lengthError ∨
            (api_iter parts running ins buf0 n).action = Action.syncError) :
    (api_run parts running ins buf0 (n + 1)).1 = true ∧
    (api_run parts running ins buf0 (n + 1)).2 = (api_run parts running ins buf0 n).2 ∧
    api_events parts running ins buf0 (n + 1) =
      spi_slave_transmit_events ++ (api_iter parts running ins buf0 (n + 1)).events := by
  have hinv := api_step_error_inv parts running (ins n)
    (api_run parts running ins buf0 n).2 (api_run parts running ins buf0 n).1 herr
  have h1 : (api_run parts running ins buf0 (n + 1)).1 = true := by
    rw [api_run_succ, hinv]
  have h2 : (api_run parts running ins buf0 (n + 1)).2 =
      (api_run parts running ins buf0 n).2 := by
    rw [api_run_succ, hinv]
  refine ⟨h1, h2, ?_⟩
  unfold api_events
  rw [h1]
  simp

theorem claim_C7_witness :
    ((api_iter partsFactoryOta runningOta0 insAllBad zeroBuf 0).action = Action.lengthError ∨
     (api_iter partsFactoryOta runningOta0 insAllBad zeroBuf 0).action = Action.syncError) ∧
    (api_run partsFactoryOta runningOta0 insAllBad zeroBuf 1).1 = true ∧
    (api_run partsFactoryOta runningOta0 insAllBad zeroBuf 1).2 =
      (api_run partsFactoryOta runningOta0 insAllBad zeroBuf 0).2 :=
  ⟨Or.inl (by decide),
   (claim_C7 partsFactoryOta runningOta0 insAllBad zeroBuf 0 (Or.inl (by decide))).1,
   (claim_C7 partsFactoryOta runningOta0 insAllBad zeroBuf 0 (Or.inl (by decide))).2.1⟩

/-- C8: the handshake trace of any run of the dispatch loop is a sequence of
`raise`/`lower` pairs: for every transaction, `raise` (handshake line high,
set by `spi_post_setup_cb` when the transaction is queued) is followed by
exactly one `lower` (`spi_post_trans_cb` after the exchange) before the next
`raise`, on error and success paths alike. -/
theorem claim_C8 (parts : List Partition) (running : Partition) (ins : Nat → TransIn)
    (buf0 : ByteBuf) (n : Nat) :
    pairsOnly (api_trace parts running ins buf0 n) = true := by
  induction n with
  | zero => rfl
  | succ n ih =>
    unfold api_trace at ih ⊢
    rw [List.range_succ, List.map_append, List.flatten_append]
    apply pairsOnly_append _ _ ih
    simp only [List.map_cons, List.map_nil, List.flatten_cons, List.flatten_nil,
               List.append_nil]
    exact api_events_pairs parts running ins buf0 n

/-- C9: after `spi_start` writes the sync marker `0xCA 0xFE` into the first
two bytes of `send_buffer`, no dispatch-loop iteration or chunked send ever
overwrites them: on entry to every iteration the buffer still starts with
`0xCA 0xFE` (so the frame exchanged by the top-of-loop transmit carries the
marker), and every chunk frame snapshot transmitted by a handler carries the
marker in its first two bytes. -/
theorem claim_C9 (b : ByteBuf) (parts : List Partition) (running : Partition)
    (ins : Nat → TransIn) (n : Nat) :
    (api_run parts running ins (spi_start_buf b) n).2 0 = 0xCA ∧
    (api_run parts running ins (spi_start_buf b) n).2 1 = 0xFE ∧
    ((api_iter parts running ins (spi_start_buf b) n).action.chunks.all
      (fun c => c.sync0 == 0xCA && c.sync1 == 0xFE)) = true := by
  obtain ⟨h0, h1⟩ := api_run_low parts running ins (spi_start_buf b) n
  have hb0 : (api_run parts running ins (spi_start_buf b) n).2 0 = 0xCA :=
    h0.trans (spi_start_buf_0 b)
  have hb1 : (api_run parts running ins (spi_start_buf b) n).2 1 = 0xFE :=
    h1.trans (spi_start_buf_1 b)
  refine ⟨hb0, hb1, ?_⟩
  obtain ⟨_, _, hch⟩ := api_step_low parts running (ins n)
    (api_run parts running ins (spi_start_buf b) n).2
    (api_run parts running ins (spi_start_buf b) n).1
  rw [List.all_eq_true]
  intro c hc
  obtain ⟨hs0, hs1⟩ := hch c hc
  simp [hs0.trans hb0, hs1.trans hb1]

/-- C5: a well-formed `RebootToOTAX` request whose `arg0` is at least the
number of bootable OTA partitions only logs the error: the dispatch step is
exactly `slotUnavailable` with `result` and `send_buffer` unchanged and no
bus transaction (no handshake events, hence no response frame); in particular
neither `boot_into_slot` (persisting a next-boot target) nor the restart is
reached. -/
theorem claim_C5 (parts : List Partition) (running : Partition) (t : TransIn)
    (b : ByteBuf) (res : Bool)
    (hlen : t.trans_len = 2048 * 8) (h0 : t.rcv 0 = 0xCA) (h1 : t.rcv 1 = 0xFE)
    (h2 : t.rcv 2 = RebootToOTAX)
    (hcount : count_bootable_ota_partitions parts ≤ t.rcv 3) :
    api_step parts running t b res =
      ⟨Action.slotUnavailable (t.rcv 3) (count_bootable_ota_partitions parts),
       res, b, []⟩ := by
  unfold api_step
  rw [if_neg (by simp [hlen]), if_neg (by simp [h0, h1]),
      if_neg (by simp [h2, RebootToOTAX, GetFirmwareInfo]),
      if_neg (by simp [h2, RebootToOTAX, Reboot]),
      if_pos h2, if_pos hcount]

theorem claim_C5_witness :
    count_bootable_ota_partitions partsFactoryOta ≤ transRebootSlot7.rcv 3 ∧
    api_step partsFactoryOta runningOta0 transRebootSlot7 zeroBuf true =
      ⟨Action.slotUnavailable (transRebootSlot7.rcv 3)
         (count_bootable_ota_partitions partsFactoryOta), true, zeroBuf, []⟩ :=
  ⟨by decide,
   claim_C5 partsFactoryOta runningOta0 transRebootSlot7 zeroBuf true
     rfl rfl rfl rfl (by decide)⟩

/-- C1 (amended): a well-formed `RebootToOTAX` request with
`arg0 < count_bootable_ota_partitions` invokes `boot_into_slot arg0`, which
selects the first enumerated APP partition whose subtype is `OTA_0` when
`arg0 = 0` and `OTA_1` for every other `arg0` (selection is by fixed subtype,
not by position among the bootable slots); the selected partition is the one
persisted as next-boot target before the restart.  When the bootable slots in
enumeration order have subtypes exactly `[OTA_0, OTA_1]` — the standard
two-slot layout, with non-bootable partitions interleaved arbitrarily — this
coincides with the `arg0`-th bootable slot. -/
theorem claim_C1 (parts : List Partition) (running : Partition) (t : TransIn)
    (b : ByteBuf) (res : Bool)
    (hlen : t.trans_len = 2048 * 8) (h0 : t.rcv 0 = 0xCA) (h1 : t.rcv 1 = 0xFE)
    (h2 : t.rcv 2 = RebootToOTAX)
    (hrange : t.rcv 3 < count_bootable_ota_partitions parts) :
    (api_step parts running t b res).action =
      Action.bootSlot (t.rcv 3) (boot_into_slot parts (t.rcv 3)) ∧
    boot_into_slot parts (t.rcv 3) =
      parts.find? (fun p => p.ptype == ESP_PARTITION_TYPE_APP &&
        p.subtype == (if t.rcv 3 = 0 then ESP_PARTITION_SUBTYPE_APP_OTA_0
                      else ESP_PARTITION_SUBTYPE_APP_OTA_1)) ∧
    ((bootable_slots parts).map Partition.subtype =
        [ESP_PARTITION_SUBTYPE_APP_OTA_0, ESP_PARTITION_SUBTYPE_APP_OTA_1] →
      boot_into_slot parts (t.rcv 3) = (bootable_slots parts)[t.rcv 3]?) := by
  refine ⟨?_, rfl, ?_⟩
  · unfold api_step
    rw [if_neg (by simp [hlen]), if_neg (by simp [h0, h1]),
        if_neg (by simp [h2, RebootToOTAX, GetFirmwareInfo]),
        if_neg (by simp [h2, RebootToOTAX, Reboot]),
        if_pos h2, if_neg (by omega)]
  · intro hmap
    have hlen2 : (bootable_slots parts).length = 2 := by
      have hmaplen := congrArg List.length hmap
      simpa using hmaplen
    have harg : t.rcv 3 < 2 := by
      rw [count_bootable_eq_length, hlen2] at hrange
      exact hrange
    have hcases : t.rcv 3 = 0 ∨ t.rcv 3 = 1 := by omega
    rcases hcases with h | h <;> rw [h]
    · rw [boot_into_slot_zero]
      exact find_first_of_subtype ESP_PARTITION_SUBTYPE_APP_OTA_0 (by decide) parts
        [ESP_PARTITION_SUBTYPE_APP_OTA_1] hmap
    · rw [boot_into_slot_one]
      exact find_second_of_subtype ESP_PARTITION_SUBTYPE_APP_OTA_0
        ESP_PARTITION_SUBTYPE_APP_OTA_1 (by decide) (by decide) parts hmap

/-- C1 counterexample: with three bootable OTA slots enumerated as
`ota_0, ota_1, ota_2` (subtypes `0x10, 0x11, 0x12`) and the in-range request
`arg0 = 2`, `boot_into_slot` selects the partition of subtype `0x11`
(`OTA_1`), not the `2`-nd bootable slot of subtype `0x12`: the handler does
not select the `arg0`-th bootable slot in enumeration order. -/
theorem claim_C1_ce :
    2 < count_bootable_ota_partitions partsThreeOta ∧
    (boot_into_slot partsThreeOta 2).map Partition.subtype = some 0x11 ∧
    ((bootable_slots partsThreeOta)[2]?).map Partition.subtype = some 0x12 ∧
    boot_into_slot partsThreeOta 2 ≠ (bootable_slots partsThreeOta)[2]? := by
  have hA : (boot_into_slot partsThreeOta 2).map Partition.subtype = some 0x11 := by decide
  have hB : ((bootable_slots partsThreeOta)[2]?).map Partition.subtype = some 0x12 := by
    decide
  refine ⟨by decide, hA, hB, fun h => ?_⟩
  rw [h] at hA
  exact absurd (hA.symm.trans hB) (by decide)

theorem claim_C1_witness :
    transRebootSlot1.rcv 3 < count_bootable_ota_partitions partsFactoryOta ∧
    (bootable_slots partsFactoryOta).map Partition.subtype =
      [ESP_PARTITION_SUBTYPE_APP_OTA_0, ESP_PARTITION_SUBTYPE_APP_OTA_1] ∧
    (api_step partsFactoryOta runningOta0 transRebootSlot1 zeroBuf true).action =
      Action.bootSlot (transRebootSlot1.rcv 3)
        (boot_into_slot partsFactoryOta (transRebootSlot1.rcv 3)) ∧
    boot_into_slot partsFactoryOta (transRebootSlot1.rcv 3) =
      (bootable_slots partsFactoryOta)[transRebootSlot1.rcv 3]? := by
  have h := claim_C1 partsFactoryOta runningOta0 transRebootSlot1 zeroBuf true
    rfl rfl rfl rfl (by decide)
  exact ⟨by decide, by decide, h.1, h.2.2 (by decide)⟩

end SpiApi
